import Mathlib

/-!
RTFM++ resource-claim analysis: a shallow embedding

The template metaprograms of `src/rtfm/details/job_resource_details.hpp` are
embedded as functions on values.  A C++ type `Job<I1, I2, ISR, Res...>` becomes a
value of `Job`, a type `Resource<ID, Jobs...>` a value of `Resource`, a
`brigand::list<...>` a `List`.  Instantiating a template whose `static_assert`
fails (or that is ill-formed) is a rejected build: the functions return
`Except BuildError _`, and the first failing assertion in instantiation order is
the error that is returned.

Types that are only compared with `std::is_same` are represented by natural
numbers: a resource `ID` type, a job `UID` type and an `ISR` type are each a
`Nat`, two of them being the same type exactly when the numbers are equal.
-/

namespace rtfm
namespace details

/-- Job descriptor `Job<I1, I2, ISR, Res...>`: `UID` is the type made from `I1`,
`priority` is `I2`, `ISR` the interrupt definition, and `Res` the pack of declared
resources, each represented by its `Res::ID` (the only member of a declared
resource that the code reads). -/
structure Job where
  UID : Nat
  priority : Nat
  ISR : Nat
  Res : List Nat
deriving DecidableEq, Repr

/-- Resource claim `Resource<ID, Jobs...>`. -/
structure Resource where
  ID : Nat
  jobs : List Job
deriving DecidableEq, Repr

/-- The diagnostics with which an instantiation can be rejected. -/
inductive BuildError where
  /-- Primary `_merge_resources_impl`: "Merging different resources are not allowed". -/
  | mergingDifferentResources
  /-- Assertion `count::value < 1`: "Duplicate jobs defined, each job must have a unique ID". -/
  | duplicateJobs
  /-- Template `_rec_merge_impl<R1, R2, Rs...>` named with fewer than two arguments. -/
  | tooFewTemplateArguments
  /-- The recursion of `make_resource_tree_impl` did not end within the instantiation depth. -/
  | instantiationDepthExceeded
deriving DecidableEq, Repr

/-- A type bound to the left-hand `typename` parameter of `_same_id` and
`_different_id`, which `std::is_same` compares with `typename Rhs::ID`: either a
resource `ID` type or a whole `Resource<ID, Jobs...>`.  The two are never the same
type. -/
inductive TypeName where
  | id (n : Nat)
  | resource (r : Resource)
deriving DecidableEq, Repr

/-- Library `brigand::count_if<List, Pred>`: the number of elements satisfying `Pred`. -/
def count_if {α : Type} (l : List α) (p : α → Bool) : Nat :=
  (l.filter p).length

/-- Library `brigand::remove_if<List, Pred>`: the elements not satisfying `Pred`, in order. -/
def remove_if {α : Type} (l : List α) (p : α → Bool) : List α :=
  l.filter (fun x => !(p x))

/-- Template `job_to_resource_impl< Job<I1, I2, ISR, Res...> >`: one
`Resource<typename Res::ID, Job<I1, I2, ISR> >` per declared resource. -/
def job_to_resource_impl (j : Job) : List Resource :=
  j.Res.map (fun res => ⟨res, [⟨j.UID, j.priority, j.ISR, []⟩]⟩)

/-- Alias `_compare_job_ids<Lhs, Rhs>`: `std::is_same<Lhs::UID, Rhs::UID>`. -/
def _compare_job_ids (Lhs Rhs : Job) : Bool :=
  decide (Lhs.UID = Rhs.UID)

/-- The two partial specialisations of `_merge_resources_impl` for resources of one
`ID`, by recursion on the job pack of the right-hand resource.  An empty right-hand
pack matches neither specialisation and falls to the primary template.  In the
specialisation with `Job, Jobs2...` both arguments of `std::conditional` are
instantiated. -/
def _merge_resources_impl_same (ID : Nat) : List Job → List Job → Except BuildError Resource
  | _, [] => .error .mergingDifferentResources
  | Jobs1, [Job] =>
    let count := count_if Jobs1 (_compare_job_ids Job)
    if count < 1 then .ok ⟨ID, Jobs1 ++ [Job]⟩ else .error .duplicateJobs
  | Jobs1, Job :: Job2 :: Jobs2 =>
    let count := count_if Jobs1 (_compare_job_ids Job)
    if count < 1 then
      match _merge_resources_impl_same ID (Jobs1 ++ [Job]) (Job2 :: Jobs2),
            _merge_resources_impl_same ID Jobs1 (Job2 :: Jobs2) with
      | .ok r, .ok r2 => .ok (if count < 1 then r else r2)
      | .error e, _ => .error e
      | .ok _, .error e => .error e
    else .error .duplicateJobs

/-- Template `_merge_resources_impl<R1, R2>`: the specialisations need both
resources to have the same `ID`; every other pair is the primary template. -/
def _merge_resources_impl (R1 R2 : Resource) : Except BuildError Resource :=
  if R1.ID = R2.ID then _merge_resources_impl_same R1.ID R1.jobs R2.jobs
  else .error .mergingDifferentResources

/-- Template `_rec_merge_impl<R1, R2, Rs...>`: left fold of the pairwise merge. -/
def _rec_merge_impl : Resource → Resource → List Resource → Except BuildError Resource
  | R1, R2, [] => _merge_resources_impl R1 R2
  | R1, R2, R3 :: Rs =>
    match _merge_resources_impl R1 R2 with
    | .ok _res => _rec_merge_impl _res R3 Rs
    | .error e => .error e

/-- Template `merge_resource_list< brigand::list<Rs...> >`: a single resource is
returned as it is, otherwise `_rec_merge_impl< Rs... >`, which does not exist for an
empty pack. -/
def merge_resource_list : List Resource → Except BuildError Resource
  | [] => .error .tooFewTemplateArguments
  | [R] => .ok R
  | R1 :: R2 :: Rs => _rec_merge_impl R1 R2 Rs

/-- Alias `_same_id<Lhs, Rhs>`: `std::is_same<Lhs, typename Rhs::ID>`. -/
def _same_id (Lhs : TypeName) (Rhs : Resource) : Bool :=
  decide (Lhs = TypeName.id Rhs.ID)

/-- Alias `_same_id_two_resources<Lhs, Rhs>`: `_same_id<typename Lhs::ID, Rhs>`. -/
def _same_id_two_resources (Lhs Rhs : Resource) : Bool :=
  _same_id (TypeName.id Lhs.ID) Rhs

/-- Alias `_different_id<Lhs, Rhs>`: `!std::is_same<Lhs, typename Rhs::ID>`. -/
def _different_id (Lhs : TypeName) (Rhs : Resource) : Bool :=
  !(decide (Lhs = TypeName.id Rhs.ID))

/-- Alias `keep_resource_if_same_id<List, Res>`:
`remove_if<List, bind<_different_id, Res, _1>>`. -/
def keep_resource_if_same_id (list : List Resource) (Res : TypeName) : List Resource :=
  remove_if list (fun x => _different_id Res x)

/-- Alias `remove_resource_if_same_id<List, Res>`:
`remove_if<List, bind<_same_id, Res, _1>>`. -/
def remove_resource_if_same_id (list : List Resource) (Res : TypeName) : List Resource :=
  remove_if list (fun x => _same_id Res x)

/-- Template `make_resource_tree_impl<ResList>` (lines 254-269).  The second argument
of `keep_resource_if_same_id` and of `remove_resource_if_same_id` is
`brigand::front<ResList>`, the front resource itself and not its `ID`; the aliases
pass it on unchanged as `Lhs` of `_different_id` and `_same_id`.  The specialisation
for `brigand::list<>` ends the recursion; the first argument bounds the depth of the
recursive instantiation. -/
def make_resource_tree_impl : Nat → List Resource → Except BuildError (List Resource)
  | _, [] => .ok []
  | 0, _ :: _ => .error .instantiationDepthExceeded
  | depth + 1, front :: tail =>
    let ResList := front :: tail
    let _kr := keep_resource_if_same_id ResList (TypeName.resource front)
    let _rr := remove_resource_if_same_id ResList (TypeName.resource front)
    match merge_resource_list _kr with
    | .error e => .error e
    | .ok merged =>
      match make_resource_tree_impl depth _rr with
      | .error e => .error e
      | .ok rest => .ok (merged :: rest)

/-! ## Auxiliary notions for the statements -/

/-- All jobs listed by the entries of a claim list, in list order. -/
def claimedJobs (l : List Resource) : List Job :=
  l.flatMap Resource.jobs

/-- The jobs `js` can be appended to `acc` one by one without any of them having the
unique id of a job that is already there. -/
def FreshFor (acc js : List Job) : Prop :=
  (∀ j ∈ js, j.UID ∉ acc.map Job.UID) ∧ (js.map Job.UID).Nodup

end details

/-! ## Priority Register Driver

The functions of `src/rtfm/details/arm_intrinsics.hpp` are single `MRS`/`MSR`
instructions on the register BASEPRI, executed in privileged mode.  The processor
state is the 8-bit field `BASEPRI<7:0>`; the `uint32_t` arguments and results are
natural numbers, of which the instructions use the bits `<7:0>`.  The value 0 of the
field means that masking is disabled, and a numerically lower non-zero value is a
higher priority level. -/

namespace arm_intrinsics

/-- Processor state that the intrinsics read and write: the register BASEPRI. -/
structure Cpu where
  BASEPRI : Nat
deriving DecidableEq, Repr

/-- Function `get_BASEPRI()`: `MRS %0, basepri`, the current value of the register. -/
def get_BASEPRI (s : Cpu) : Nat :=
  s.BASEPRI

/-- Function `set_BASEPRI(value)`: `MSR basepri, %0`, assigns the value to the
register. -/
def set_BASEPRI (value : Nat) (_s : Cpu) : Cpu :=
  ⟨value % 256⟩

/-- Function `set_BASEPRI_MAX(value)`: `MSR basepri_max, %0`, assigns the value to
the register only if masking is disabled (the register is 0) or the new value
increases the priority level (it is not 0 and numerically below the register). -/
def set_BASEPRI_MAX (value : Nat) (s : Cpu) : Cpu :=
  if value % 256 ≠ 0 ∧ (value % 256 < s.BASEPRI ∨ s.BASEPRI = 0) then ⟨value % 256⟩ else s

/-- Function template `set_BASEPRI<I>()`: `MSR basepri, %0` with the constant `I`. -/
def set_BASEPRI_const (I : Nat) (s : Cpu) : Cpu :=
  set_BASEPRI I s

/-- Function template `set_BASEPRI_MAX<I>()`: `MSR basepri_max, %0` with the
constant `I`. -/
def set_BASEPRI_MAX_const (I : Nat) (s : Cpu) : Cpu :=
  set_BASEPRI_MAX I s

/-- Function `barrier_entry()`: a compiler fence for `__CORTEX_M >= 3`, `dsb` and
`isb` otherwise; neither variant writes a register. -/
def barrier_entry (__CORTEX_M : Nat) (s : Cpu) : Cpu :=
  if __CORTEX_M ≥ 3 then s else s

/-- Function `barrier_exit()`: a compiler fence; it writes no register. -/
def barrier_exit (s : Cpu) : Cpu :=
  s

/-- Modelled from the spec: `enter` of the Critical Section Primitive, whose code is
not among the sources.  It captures the current mask, calls
`set_priority_mask_if_higher(ceiling)` and then `memory_barrier_enter()`; the
captured mask is returned for the matching `exit`. -/
def enter (__CORTEX_M : Nat) (ceiling : Nat) (s : Cpu) : Nat × Cpu :=
  (get_BASEPRI s, barrier_entry __CORTEX_M (set_BASEPRI_MAX ceiling s))

/-- Modelled from the spec: `exit` of the Critical Section Primitive, whose code is
not among the sources.  It calls `memory_barrier_exit()` and then
`set_priority_mask(previous_mask)`. -/
def exit (previous_mask : Nat) (s : Cpu) : Cpu :=
  set_BASEPRI previous_mask (barrier_exit s)

/-- Properly nested critical sections: nothing, or a section with a ceiling, the
sections nested inside it, and the sections that follow it. -/
inductive Sections where
  | done
  | sect (ceiling : Nat) (inner next : Sections)
deriving Repr

/-- Modelled from the spec: execution of properly nested critical sections, each
`exit` being given the mask captured by its matching `enter`. -/
def run (__CORTEX_M : Nat) : Sections → Cpu → Cpu
  | .done, s => s
  | .sect ceiling inner next, s =>
    let entered := enter __CORTEX_M ceiling s
    let inside := run __CORTEX_M inner entered.2
    run __CORTEX_M next (exit entered.1 inside)

end arm_intrinsics

namespace details

/-! ## The pairwise merge -/

theorem count_if_lt_one_iff (acc : List Job) (j : Job) :
    count_if acc (_compare_job_ids j) < 1 ↔ j.UID ∉ acc.map Job.UID := by
  unfold count_if
  rw [Nat.lt_one_iff, List.length_eq_zero, List.filter_eq_nil_iff]
  simp only [_compare_job_ids, decide_eq_true_eq, List.mem_map, not_exists, not_and]
  constructor
  · intro h x hx e
    exact h x hx e.symm
  · intro h x hx e
    exact h x hx e.symm

theorem freshFor_nil (acc : List Job) : FreshFor acc [] := by
  simp [FreshFor]

theorem freshFor_cons (acc : List Job) (j : Job) (js : List Job) :
    FreshFor acc (j :: js) ↔ j.UID ∉ acc.map Job.UID ∧ FreshFor (acc ++ [j]) js := by
  simp only [FreshFor, List.mem_cons, forall_eq_or_imp, List.map_cons, List.nodup_cons,
    List.map_append, List.mem_append, List.map_nil, List.mem_singleton, not_or,
    List.not_mem_nil, not_false_eq_true, and_true]
  constructor
  · rintro ⟨⟨h1, h2⟩, h3, h4⟩
    refine ⟨h1, ⟨fun x hx => ⟨h2 x hx, ?_⟩, h4⟩⟩
    intro e
    exact h3 (List.mem_map.2 ⟨x, hx, e⟩)
  · rintro ⟨h1, h2, h4⟩
    refine ⟨⟨h1, fun x hx => (h2 x hx).1⟩, ?_, h4⟩
    intro hm
    obtain ⟨x, hx, e⟩ := List.mem_map.1 hm
    exact (h2 x hx).2 e

theorem freshFor_append (acc a b : List Job) :
    FreshFor acc (a ++ b) ↔ FreshFor acc a ∧ FreshFor (acc ++ a) b := by
  induction a generalizing acc with
  | nil => simp [freshFor_nil]
  | cons j a ih =>
    rw [List.cons_append, freshFor_cons, freshFor_cons, ih]
    simp [and_assoc]

theorem nodup_append_iff_freshFor (acc js : List Job) :
    ((acc ++ js).map Job.UID).Nodup ↔ (acc.map Job.UID).Nodup ∧ FreshFor acc js := by
  rw [List.map_append, List.nodup_append]
  simp only [FreshFor, List.Disjoint, List.mem_map]
  constructor
  · rintro ⟨h1, h2, h3⟩
    exact ⟨h1, fun j hj hacc => h3 hacc ⟨j, hj, rfl⟩, h2⟩
  · rintro ⟨h1, h2, h3⟩
    refine ⟨h1, h3, ?_⟩
    rintro u hacc ⟨j, hj, rfl⟩
    exact h2 j hj hacc

theorem freshFor_nil_left_iff (js : List Job) :
    FreshFor [] js ↔ (js.map Job.UID).Nodup := by
  simp [FreshFor]

/-- The jobs `js` are fresh for `acc` exactly when no job of `js` has the unique id of
a job that precedes it in `acc ++ js`. -/
theorem freshFor_iff_no_clash (acc js : List Job) :
    FreshFor acc js ↔
      ∀ a j b, js = a ++ j :: b → j.UID ∉ (acc ++ a).map Job.UID := by
  constructor
  · rintro h a j b rfl
    rw [freshFor_append, freshFor_cons] at h
    exact h.2.1
  · intro h
    induction js generalizing acc with
    | nil => exact freshFor_nil _
    | cons j js ih =>
      rw [freshFor_cons]
      refine ⟨by simpa using h [] j js rfl, ih _ ?_⟩
      intro a j2 b hjs
      have := h (j :: a) j2 b (by rw [hjs]; rfl)
      simpa [List.append_assoc] using this

/-- Result of the same-id merge on a non-empty right-hand pack without a clash. -/
theorem _merge_resources_impl_same_ok (ID : Nat) (acc js : List Job) (hne : js ≠ [])
    (h : FreshFor acc js) :
    _merge_resources_impl_same ID acc js = .ok ⟨ID, acc ++ js⟩ := by
  induction js generalizing acc with
  | nil => exact absurd rfl hne
  | cons j js ih =>
    rw [freshFor_cons] at h
    have hc := (count_if_lt_one_iff acc j).2 h.1
    cases js with
    | nil => simp [_merge_resources_impl_same, hc]
    | cons j2 js2 =>
      have h1 := ih (acc ++ [j]) (by simp) h.2
      have h2 : FreshFor acc (j2 :: js2) := by
        have h3 := h.2
        simp only [FreshFor, List.map_append, List.mem_append, not_or] at h3 ⊢
        exact ⟨fun x hx => (h3.1 x hx).1, h3.2⟩
      have h4 := ih acc (by simp) h2
      simp [_merge_resources_impl_same, hc, h1, h4]

/-- Result of the same-id merge on a non-empty right-hand pack with a clash. -/
theorem _merge_resources_impl_same_dup (ID : Nat) (acc js : List Job) (hne : js ≠ [])
    (h : ¬ FreshFor acc js) :
    _merge_resources_impl_same ID acc js = .error .duplicateJobs := by
  induction js generalizing acc with
  | nil => exact absurd rfl hne
  | cons j js ih =>
    rw [freshFor_cons] at h
    by_cases hj : j.UID ∈ acc.map Job.UID
    · have hc : ¬ count_if acc (_compare_job_ids j) < 1 := by
        rw [count_if_lt_one_iff]; exact not_not.2 hj
      cases js with
      | nil => simp [_merge_resources_impl_same, hc]
      | cons j2 js2 => simp [_merge_resources_impl_same, hc]
    · have hc := (count_if_lt_one_iff acc j).2 hj
      have h2 : ¬ FreshFor (acc ++ [j]) js := fun hf => h ⟨hj, hf⟩
      cases js with
      | nil => exact absurd (freshFor_nil _) h2
      | cons j2 js2 =>
        have h1 := ih (acc ++ [j]) (by simp) h2
        simp [_merge_resources_impl_same, hc, h1]

/-- A successful same-id merge appended a clash-free pack. -/
theorem _merge_resources_impl_same_eq_ok (ID : Nat) (acc js : List Job) (r : Resource)
    (h : _merge_resources_impl_same ID acc js = .ok r) :
    js ≠ [] ∧ FreshFor acc js ∧ r = ⟨ID, acc ++ js⟩ := by
  have hne : js ≠ [] := by
    rintro rfl
    simp [_merge_resources_impl_same] at h
  by_cases hf : FreshFor acc js
  · rw [_merge_resources_impl_same_ok ID acc js hne hf] at h
    exact ⟨hne, hf, (Except.ok.inj h).symm⟩
  · rw [_merge_resources_impl_same_dup ID acc js hne hf] at h
    cases h

theorem _merge_resources_impl_eq_ok (R1 R2 r : Resource)
    (h : _merge_resources_impl R1 R2 = .ok r) :
    R2.ID = R1.ID ∧ R2.jobs ≠ [] ∧ FreshFor R1.jobs R2.jobs ∧
      r = ⟨R1.ID, R1.jobs ++ R2.jobs⟩ := by
  unfold _merge_resources_impl at h
  by_cases hid : R1.ID = R2.ID
  · rw [if_pos hid] at h
    exact ⟨hid.symm, _merge_resources_impl_same_eq_ok _ _ _ _ h⟩
  · rw [if_neg hid] at h
    cases h

theorem _merge_resources_impl_ok (R1 R2 : Resource) (hid : R2.ID = R1.ID)
    (hne : R2.jobs ≠ []) (hf : FreshFor R1.jobs R2.jobs) :
    _merge_resources_impl R1 R2 = .ok ⟨R1.ID, R1.jobs ++ R2.jobs⟩ := by
  unfold _merge_resources_impl
  rw [if_pos hid.symm]
  exact _merge_resources_impl_same_ok _ _ _ hne hf

theorem _merge_resources_impl_dup (R1 R2 : Resource) (hid : R2.ID = R1.ID)
    (hne : R2.jobs ≠ []) (hf : ¬ FreshFor R1.jobs R2.jobs) :
    _merge_resources_impl R1 R2 = .error .duplicateJobs := by
  unfold _merge_resources_impl
  rw [if_pos hid.symm]
  exact _merge_resources_impl_same_dup _ _ _ hne hf

/-! ## The fold over a list of resources -/

theorem claimedJobs_cons (R : Resource) (Rs : List Resource) :
    claimedJobs (R :: Rs) = R.jobs ++ claimedJobs Rs := by
  simp [claimedJobs]

theorem _rec_merge_impl_eq_ok (R1 R2 : Resource) (Rs : List Resource) (r : Resource)
    (h : _rec_merge_impl R1 R2 Rs = .ok r) :
    (∀ x ∈ R2 :: Rs, x.ID = R1.ID ∧ x.jobs ≠ []) ∧
      FreshFor R1.jobs (claimedJobs (R2 :: Rs)) ∧
      r = ⟨R1.ID, R1.jobs ++ claimedJobs (R2 :: Rs)⟩ := by
  induction Rs generalizing R1 R2 with
  | nil =>
    obtain ⟨h1, h2, h3, h4⟩ := _merge_resources_impl_eq_ok R1 R2 r h
    refine ⟨?_, ?_, ?_⟩
    · intro x hx
      rw [List.mem_singleton] at hx
      subst hx
      exact ⟨h1, h2⟩
    · simpa [claimedJobs] using h3
    · simpa [claimedJobs] using h4
  | cons R3 Rs ih =>
    unfold _rec_merge_impl at h
    cases hm : _merge_resources_impl R1 R2 with
    | error e => rw [hm] at h; cases h
    | ok res =>
      rw [hm] at h
      obtain ⟨h1, h2, h3, h4⟩ := _merge_resources_impl_eq_ok R1 R2 res hm
      obtain ⟨k1, k2, k3⟩ := ih res R3 h
      subst h4
      refine ⟨?_, ?_, ?_⟩
      · intro x hx
        rw [List.mem_cons] at hx
        rcases hx with rfl | hx
        · exact ⟨h1, h2⟩
        · exact k1 x hx
      · rw [claimedJobs_cons, freshFor_append]
        exact ⟨h3, k2⟩
      · rw [k3, claimedJobs_cons R2]
        simp [List.append_assoc]

theorem _rec_merge_impl_ok (R1 R2 : Resource) (Rs : List Resource)
    (hid : ∀ x ∈ R2 :: Rs, x.ID = R1.ID) (hne : ∀ x ∈ R2 :: Rs, x.jobs ≠ [])
    (hf : FreshFor R1.jobs (claimedJobs (R2 :: Rs))) :
    _rec_merge_impl R1 R2 Rs = .ok ⟨R1.ID, R1.jobs ++ claimedJobs (R2 :: Rs)⟩ := by
  induction Rs generalizing R1 R2 with
  | nil =>
    have h := _merge_resources_impl_ok R1 R2 (hid R2 (by simp)) (hne R2 (by simp))
      (by simpa [claimedJobs] using hf)
    simpa [_rec_merge_impl, claimedJobs] using h
  | cons R3 Rs ih =>
    rw [claimedJobs_cons, freshFor_append] at hf
    have h := _merge_resources_impl_ok R1 R2 (hid R2 (by simp)) (hne R2 (by simp)) hf.1
    unfold _rec_merge_impl
    rw [h]
    have h2 := ih ⟨R1.ID, R1.jobs ++ R2.jobs⟩ R3
      (fun x hx => hid x (List.mem_cons_of_mem _ hx))
      (fun x hx => hne x (List.mem_cons_of_mem _ hx)) hf.2
    simp only [h2, claimedJobs_cons R2, List.append_assoc]

theorem _rec_merge_impl_dup (R1 R2 : Resource) (Rs : List Resource)
    (hid : ∀ x ∈ R2 :: Rs, x.ID = R1.ID) (hne : ∀ x ∈ R2 :: Rs, x.jobs ≠ [])
    (hf : ¬ FreshFor R1.jobs (claimedJobs (R2 :: Rs))) :
    _rec_merge_impl R1 R2 Rs = .error .duplicateJobs := by
  induction Rs generalizing R1 R2 with
  | nil =>
    have h := _merge_resources_impl_dup R1 R2 (hid R2 (by simp)) (hne R2 (by simp))
      (by simpa [claimedJobs] using hf)
    simpa [_rec_merge_impl] using h
  | cons R3 Rs ih =>
    rw [claimedJobs_cons, freshFor_append] at hf
    unfold _rec_merge_impl
    by_cases h1 : FreshFor R1.jobs R2.jobs
    · rw [_merge_resources_impl_ok R1 R2 (hid R2 (by simp)) (hne R2 (by simp)) h1]
      exact ih ⟨R1.ID, R1.jobs ++ R2.jobs⟩ R3
        (fun x hx => hid x (List.mem_cons_of_mem _ hx))
        (fun x hx => hne x (List.mem_cons_of_mem _ hx)) (fun h2 => hf ⟨h1, h2⟩)
    · rw [_merge_resources_impl_dup R1 R2 (hid R2 (by simp)) (hne R2 (by simp)) h1]

theorem claimedJobs_perm {l l2 : List Resource} (h : l2.Perm l) :
    (claimedJobs l2).Perm (claimedJobs l) :=
  List.Perm.flatMap_right _ h

theorem mem_claimedJobs (l : List Resource) (j : Job) :
    j ∈ claimedJobs l ↔ ∃ r ∈ l, j ∈ r.jobs := by
  simp [claimedJobs, List.mem_flatMap]

/-- Merge of a non-empty list of entries of one id, none of them without a job and
no unique id listed twice: the jobs of all entries, in list order. -/
theorem merge_resource_list_ok (i : Nat) (l : List Resource) (hne : l ≠ [])
    (hid : ∀ r ∈ l, r.ID = i) (hjobs : ∀ r ∈ l, r.jobs ≠ [])
    (hnodup : ((claimedJobs l).map Job.UID).Nodup) :
    merge_resource_list l = .ok ⟨i, claimedJobs l⟩ := by
  match l, hne with
  | [R], _ =>
    have h1 := hid R (by simp)
    subst h1
    simp [merge_resource_list, claimedJobs]
  | R1 :: R2 :: Rs, _ =>
    have h1 := hid R1 (by simp)
    subst h1
    rw [claimedJobs_cons, nodup_append_iff_freshFor] at hnodup
    have h := _rec_merge_impl_ok R1 R2 Rs
      (fun x hx => hid x (List.mem_cons_of_mem _ hx))
      (fun x hx => hjobs x (List.mem_cons_of_mem _ hx)) hnodup.2
    simpa [merge_resource_list, claimedJobs_cons R1] using h

/-- A successful merge returns the id of the first entry and the jobs of all
entries in list order; only the jobs behind the first entry were compared. -/
theorem merge_resource_list_eq_ok (l : List Resource) (r : Resource)
    (h : merge_resource_list l = .ok r) :
    ∃ R1 Rs, l = R1 :: Rs ∧ r = ⟨R1.ID, claimedJobs l⟩ ∧
      FreshFor R1.jobs (claimedJobs Rs) ∧ ∀ x ∈ Rs, x.ID = R1.ID ∧ x.jobs ≠ [] := by
  match l with
  | [] => simp [merge_resource_list] at h
  | [R] =>
    simp only [merge_resource_list, Except.ok.injEq] at h
    subst h
    exact ⟨R, [], rfl, by simp [claimedJobs], freshFor_nil _, by simp⟩
  | R1 :: R2 :: Rs =>
    obtain ⟨h1, h2, h3⟩ := _rec_merge_impl_eq_ok R1 R2 Rs r h
    exact ⟨R1, R2 :: Rs, rfl, by rw [h3, claimedJobs_cons R1], h2, h1⟩

/-! ## The partitions of the tree builder -/

theorem _same_id_resource (front x : Resource) :
    _same_id (TypeName.resource front) x = false := by
  simp [_same_id]

theorem _different_id_resource (front x : Resource) :
    _different_id (TypeName.resource front) x = true := by
  simp [_different_id]

theorem keep_resource_if_same_id_resource (l : List Resource) (front : Resource) :
    keep_resource_if_same_id l (TypeName.resource front) = [] := by
  simp [keep_resource_if_same_id, remove_if, _different_id_resource]

theorem remove_resource_if_same_id_resource (l : List Resource) (front : Resource) :
    remove_resource_if_same_id l (TypeName.resource front) = l := by
  simp [remove_resource_if_same_id, remove_if, _same_id_resource]

/-- The tree builder, at a positive depth, on any non-empty claim list: the merge of
the kept partition is the merge of an empty list. -/
theorem make_resource_tree_impl_cons (depth : Nat) (front : Resource) (tail : List Resource) :
    make_resource_tree_impl (depth + 1) (front :: tail) = .error .tooFewTemplateArguments := by
  simp [make_resource_tree_impl, keep_resource_if_same_id_resource, merge_resource_list]

theorem make_resource_tree_impl_ne_ok (depth : Nat) (front : Resource) (tail t : List Resource) :
    make_resource_tree_impl depth (front :: tail) ≠ .ok t := by
  cases depth with
  | zero => simp [make_resource_tree_impl]
  | succ d => simp [make_resource_tree_impl_cons]

theorem claimedJobs_sublist {l l2 : List Resource} (h : l.Sublist l2) :
    (claimedJobs l).Sublist (claimedJobs l2) := by
  induction h with
  | slnil => exact List.Sublist.refl _
  | cons a _ ih =>
    rw [claimedJobs_cons]
    exact List.sublist_append_of_sublist_right ih
  | cons₂ a _ ih =>
    rw [claimedJobs_cons, claimedJobs_cons]
    exact List.Sublist.append (List.Sublist.refl _) ih

theorem mem_keep_resource_if_same_id_id (l : List Resource) (R : Nat) (x : Resource) :
    x ∈ keep_resource_if_same_id l (TypeName.id R) ↔ x ∈ l ∧ x.ID = R := by
  simp only [keep_resource_if_same_id, remove_if, _different_id, List.mem_filter,
    Bool.not_not, decide_eq_true_eq, TypeName.id.injEq]
  constructor
  · rintro ⟨h1, h2⟩
    exact ⟨h1, h2.symm⟩
  · rintro ⟨h1, h2⟩
    exact ⟨h1, h2.symm⟩

theorem mem_job_to_resource_impl (J : Job) (x : Resource) (h : x ∈ job_to_resource_impl J) :
    x.jobs = [⟨J.UID, J.priority, J.ISR, []⟩] := by
  simp only [job_to_resource_impl, List.mem_map] at h
  obtain ⟨res, _, rfl⟩ := h
  rfl

/-- With the `ID` of the front entry as left-hand side (what
`_same_id_two_resources` extracts), the kept partition contains the front entry. -/
theorem keep_resource_if_same_id_id_ne_nil (front : Resource) (tail : List Resource) :
    keep_resource_if_same_id (front :: tail) (TypeName.id front.ID) ≠ [] := by
  intro h
  have hm := (mem_keep_resource_if_same_id_id (front :: tail) front.ID front).2
    ⟨List.mem_cons_self _ _, rfl⟩
  rw [h] at hm
  exact List.not_mem_nil _ hm

/-- With the `ID` of the front entry as left-hand side, the removed partition is
strictly shorter than the list. -/
theorem remove_resource_if_same_id_id_length_lt (front : Resource) (tail : List Resource) :
    (remove_resource_if_same_id (front :: tail) (TypeName.id front.ID)).length
      < (front :: tail).length := by
  have h : remove_resource_if_same_id (front :: tail) (TypeName.id front.ID)
      = remove_resource_if_same_id tail (TypeName.id front.ID) := by
    simp [remove_resource_if_same_id, remove_if, _same_id]
  rw [h]
  exact Nat.lt_succ_of_le (List.length_filter_le _ _)

/-! ## Resource Tree Builder: entries of the table -/

/-- C1, evaluated on the claim list `[Resource<1, J1>, Resource<2, J2>]` (two
distinct ids, one job each): the claim expects a table of two entries, but the kept
partition is empty, its merge is rejected, and no instantiation depth yields a
table. -/
theorem make_resource_tree_impl_rejects_distinct_ids :
    keep_resource_if_same_id [⟨1, [⟨1, 1, 0, []⟩]⟩, ⟨2, [⟨2, 2, 0, []⟩]⟩]
        (TypeName.resource ⟨1, [⟨1, 1, 0, []⟩]⟩) = [] ∧
      (∀ depth, make_resource_tree_impl (depth + 1)
        [⟨1, [⟨1, 1, 0, []⟩]⟩, ⟨2, [⟨2, 2, 0, []⟩]⟩] = .error .tooFewTemplateArguments) ∧
      ∀ depth t, make_resource_tree_impl depth
        [⟨1, [⟨1, 1, 0, []⟩]⟩, ⟨2, [⟨2, 2, 0, []⟩]⟩] ≠ .ok t :=
  ⟨by decide, fun depth => make_resource_tree_impl_cons depth _ _,
    fun depth t => make_resource_tree_impl_ne_ok depth _ _ t⟩

/-- C2, evaluated on the scenario of the specification: jobs J1, J2, J3 where J1
and J3 declare resource 7 and J2 declares nothing.  The claim list has the two
entries of J1 and J3, whose merge is the expected entry with jobs J1 and J3, but the
tree builder is rejected at every instantiation depth instead of returning it. -/
theorem make_resource_tree_impl_rejects_shared_resource :
    List.flatMap ([⟨1, 1, 0, [7]⟩, ⟨2, 2, 0, []⟩, ⟨3, 3, 0, [7]⟩] : List Job)
          job_to_resource_impl
        = [⟨7, [⟨1, 1, 0, []⟩]⟩, ⟨7, [⟨3, 3, 0, []⟩]⟩] ∧
      merge_resource_list [⟨7, [⟨1, 1, 0, []⟩]⟩, ⟨7, [⟨3, 3, 0, []⟩]⟩]
        = .ok ⟨7, [⟨1, 1, 0, []⟩, ⟨3, 3, 0, []⟩]⟩ ∧
      ∀ depth t, make_resource_tree_impl depth
        (List.flatMap ([⟨1, 1, 0, [7]⟩, ⟨2, 2, 0, []⟩, ⟨3, 3, 0, [7]⟩] : List Job)
          job_to_resource_impl)
          ≠ .ok t :=
  ⟨rfl, rfl, fun depth t => make_resource_tree_impl_ne_ok depth _ _ t⟩

/-! ## Resource Merge Engine -/

/-- C3: for a non-empty list `l` of entries of one id `i`, each with at least one
job and no unique id occurring twice among all their jobs, the merge of every
permutation of `l` succeeds and returns a resource of id `i` whose jobs are as many
as the jobs of `l`, have pairwise distinct unique ids, and are exactly the jobs
listed by some entry of `l`. -/
theorem merge_resource_list_union_of_perm (i : Nat) (l l2 : List Resource)
    (hne : l ≠ []) (hid : ∀ r ∈ l, r.ID = i) (hjobs : ∀ r ∈ l, r.jobs ≠ [])
    (hnodup : ((claimedJobs l).map Job.UID).Nodup) (hperm : l2.Perm l) :
    ∃ res, merge_resource_list l2 = .ok res ∧ res.ID = i ∧
      res.jobs.length = (claimedJobs l).length ∧
      (res.jobs.map Job.UID).Nodup ∧
      ∀ j, j ∈ res.jobs ↔ ∃ r ∈ l, j ∈ r.jobs := by
  have hp := claimedJobs_perm hperm
  have hne2 : l2 ≠ [] := fun h => hne (by simpa [h] using hperm.symm)
  have hnodup2 : ((claimedJobs l2).map Job.UID).Nodup :=
    ((hp.map Job.UID).nodup_iff).2 hnodup
  refine ⟨⟨i, claimedJobs l2⟩, ?_, rfl, hp.length_eq, hnodup2, ?_⟩
  · exact merge_resource_list_ok i l2 hne2 (fun r hr => hid r (hperm.subset hr))
      (fun r hr => hjobs r (hperm.subset hr)) hnodup2
  · intro j
    rw [← mem_claimedJobs]
    exact hp.mem_iff

/-- C3 at the entries `Resource<7, J1>` and `Resource<7, J3, J2>`, merged in the
swapped order. -/
theorem merge_resource_list_union_of_perm_witness :
    ∃ res, merge_resource_list [⟨7, [⟨3, 3, 0, []⟩, ⟨2, 2, 0, []⟩]⟩, ⟨7, [⟨1, 1, 0, []⟩]⟩]
        = .ok res ∧ res.ID = 7 ∧
      res.jobs.length =
        (claimedJobs [⟨7, [⟨1, 1, 0, []⟩]⟩, ⟨7, [⟨3, 3, 0, []⟩, ⟨2, 2, 0, []⟩]⟩]).length ∧
      (res.jobs.map Job.UID).Nodup ∧
      ∀ j, j ∈ res.jobs ↔
        ∃ r ∈ [(⟨7, [⟨1, 1, 0, []⟩]⟩ : Resource), ⟨7, [⟨3, 3, 0, []⟩, ⟨2, 2, 0, []⟩]⟩],
          j ∈ r.jobs :=
  merge_resource_list_union_of_perm 7
    [⟨7, [⟨1, 1, 0, []⟩]⟩, ⟨7, [⟨3, 3, 0, []⟩, ⟨2, 2, 0, []⟩]⟩]
    [⟨7, [⟨3, 3, 0, []⟩, ⟨2, 2, 0, []⟩]⟩, ⟨7, [⟨1, 1, 0, []⟩]⟩]
    (by decide) (by decide) (by decide) (by decide) (List.Perm.swap _ _ _)

/-- C4 as stated fails: the entries `Resource<7, J1, J1>` and `Resource<7, J2>` are
merged successfully, and the result lists the job of unique id 1 twice. -/
theorem merge_resource_list_keeps_duplicates_of_first :
    merge_resource_list [⟨7, [⟨1, 1, 0, []⟩, ⟨1, 1, 0, []⟩]⟩, ⟨7, [⟨2, 2, 0, []⟩]⟩]
        = .ok ⟨7, [⟨1, 1, 0, []⟩, ⟨1, 1, 0, []⟩, ⟨2, 2, 0, []⟩]⟩ ∧
      ¬ (List.map Job.UID [⟨1, 1, 0, []⟩, ⟨1, 1, 0, []⟩, ⟨2, 2, 0, []⟩]).Nodup :=
  ⟨rfl, by decide⟩

/-- C4, amended: when the merge of a list succeeds and the job list of its first
entry has no two jobs of the same unique id, the jobs of the result have pairwise
distinct unique ids. -/
theorem merge_resource_list_nodup (R1 : Resource) (Rs : List Resource) (r : Resource)
    (h : merge_resource_list (R1 :: Rs) = .ok r)
    (hfirst : (R1.jobs.map Job.UID).Nodup) :
    (r.jobs.map Job.UID).Nodup := by
  obtain ⟨R, Rs2, hl, hr, hf, _⟩ := merge_resource_list_eq_ok _ _ h
  obtain ⟨h1, h2⟩ := List.cons.inj hl
  subst h1 h2 hr
  rw [claimedJobs_cons, nodup_append_iff_freshFor]
  exact ⟨hfirst, hf⟩

/-- C4 amended, at the entries `Resource<7, J1>` and `Resource<7, J2>`. -/
theorem merge_resource_list_nodup_witness :
    (List.map Job.UID [⟨1, 1, 0, []⟩, ⟨2, 2, 0, []⟩]).Nodup :=
  merge_resource_list_nodup ⟨7, [⟨1, 1, 0, []⟩]⟩ [⟨7, [⟨2, 2, 0, []⟩]⟩]
    ⟨7, [⟨1, 1, 0, []⟩, ⟨2, 2, 0, []⟩]⟩ rfl (by decide)

/-- C5: when a job `J` declares the resource id `R` at least twice, then whatever
jobs are declared before and after it, the tree builder applied to the concatenation
of the claims of all jobs yields no table at any instantiation depth; and the merge
of the claims on `R` (the entries of the claim list whose id is `R`) is rejected
with the duplicate-job assertion. -/
theorem build_rejects_double_claim (J : Job) (R : Nat) (before after : List Job)
    (hdup : 2 ≤ J.Res.count R) :
    (∀ depth t, make_resource_tree_impl depth
        (List.flatMap (before ++ J :: after) job_to_resource_impl) ≠ .ok t) ∧
      merge_resource_list (keep_resource_if_same_id
        (List.flatMap (before ++ J :: after) job_to_resource_impl) (TypeName.id R))
          = .error .duplicateJobs := by
  have hsub : [(⟨R, [⟨J.UID, J.priority, J.ISR, []⟩]⟩ : Resource),
      ⟨R, [⟨J.UID, J.priority, J.ISR, []⟩]⟩].Sublist
        (List.flatMap (before ++ J :: after) job_to_resource_impl) := by
    have h1 := (List.le_count_iff_replicate_sublist).1 hdup
    have h2 := h1.map (fun res => (⟨res, [⟨J.UID, J.priority, J.ISR, []⟩]⟩ : Resource))
    have h3 : (job_to_resource_impl J).Sublist
        (List.flatMap (before ++ J :: after) job_to_resource_impl) := by
      rw [List.flatMap_append, List.flatMap_cons]
      exact List.sublist_append_of_sublist_right (List.sublist_append_left _ _)
    exact List.Sublist.trans (by simpa [List.replicate] using h2) h3
  constructor
  · intro depth t
    cases hc : List.flatMap (before ++ J :: after) job_to_resource_impl with
    | nil =>
      rw [hc] at hsub
      cases hsub
    | cons front tail => exact make_resource_tree_impl_ne_ok depth front tail t
  · have hk := hsub.filter (fun x => !(_different_id (TypeName.id R) x))
    have hk2 : [(⟨R, [⟨J.UID, J.priority, J.ISR, []⟩]⟩ : Resource),
        ⟨R, [⟨J.UID, J.priority, J.ISR, []⟩]⟩].Sublist
          (keep_resource_if_same_id
            (List.flatMap (before ++ J :: after) job_to_resource_impl) (TypeName.id R)) := by
      simpa [keep_resource_if_same_id, remove_if, _different_id] using hk
    have hmem : ∀ x ∈ keep_resource_if_same_id
        (List.flatMap (before ++ J :: after) job_to_resource_impl) (TypeName.id R),
        x.ID = R ∧ ∃ j, x.jobs = [j] := by
      intro x hx
      rw [mem_keep_resource_if_same_id_id] at hx
      obtain ⟨J2, _, hJ2⟩ := List.mem_flatMap.1 hx.1
      exact ⟨hx.2, _, mem_job_to_resource_impl J2 x hJ2⟩
    generalize keep_resource_if_same_id
      (List.flatMap (before ++ J :: after) job_to_resource_impl) (TypeName.id R) = K
      at hk2 hmem
    have hnd : ¬ ((claimedJobs K).map Job.UID).Nodup := by
      intro hn
      have h5 := hn.sublist ((claimedJobs_sublist hk2).map Job.UID)
      simp [claimedJobs] at h5
    match K, hk2, hmem, hnd with
    | [], hk2, _, _ => cases hk2
    | [R1], hk2, _, _ =>
      have := hk2.length_le
      simp at this
    | R1 :: R2 :: Rs, _, hmem, hnd =>
      have hR1 := hmem R1 (by simp)
      apply _rec_merge_impl_dup R1 R2 Rs
      · intro x hx
        rw [(hmem x (List.mem_cons_of_mem _ hx)).1, hR1.1]
      · intro x hx
        obtain ⟨j, hj⟩ := (hmem x (List.mem_cons_of_mem _ hx)).2
        simp [hj]
      · intro hf
        apply hnd
        rw [claimedJobs_cons, nodup_append_iff_freshFor]
        obtain ⟨j, hj⟩ := hR1.2
        exact ⟨by simp [hj], hf⟩

/-- C5 at the job J1 that declares resource 7 twice, between two further jobs. -/
theorem build_rejects_double_claim_witness :
    (∀ depth t, make_resource_tree_impl depth
        (List.flatMap ([⟨2, 2, 0, [7, 8]⟩] ++ (⟨1, 1, 0, [7, 7]⟩ : Job) :: [⟨3, 3, 0, [8]⟩])
          job_to_resource_impl) ≠ .ok t) ∧
      merge_resource_list (keep_resource_if_same_id
        (List.flatMap ([⟨2, 2, 0, [7, 8]⟩] ++ (⟨1, 1, 0, [7, 7]⟩ : Job) :: [⟨3, 3, 0, [8]⟩])
          job_to_resource_impl) (TypeName.id 7))
          = .error .duplicateJobs :=
  build_rejects_double_claim ⟨1, 1, 0, [7, 7]⟩ 7 [⟨2, 2, 0, [7, 8]⟩] [⟨3, 3, 0, [8]⟩]
    (by decide)

/-- C7, evaluated on every non-empty list `front :: tail`: the partition kept for
the pivot `brigand::front<ResList>` is empty, and the partition handed to the
recursive instantiation is the whole input, which is not shorter than the input. -/
theorem partitions_of_front (front : Resource) (tail : List Resource) :
    keep_resource_if_same_id (front :: tail) (TypeName.resource front) = [] ∧
      remove_resource_if_same_id (front :: tail) (TypeName.resource front) = front :: tail ∧
      ¬ (remove_resource_if_same_id (front :: tail) (TypeName.resource front)).length
          < (front :: tail).length := by
  rw [keep_resource_if_same_id_resource, remove_resource_if_same_id_resource]
  exact ⟨rfl, rfl, Nat.lt_irrefl _⟩

/-- C8, evaluated on the table with the single entry `Resource<7, J1, J3>`: the tree
builder does not return the table at any instantiation depth, and at every positive
depth it is rejected. -/
theorem make_resource_tree_impl_rejects_merged_table :
    (∀ depth, make_resource_tree_impl (depth + 1) [⟨7, [⟨1, 1, 0, []⟩, ⟨3, 3, 0, []⟩]⟩]
        = .error .tooFewTemplateArguments) ∧
      ∀ depth, make_resource_tree_impl depth [⟨7, [⟨1, 1, 0, []⟩, ⟨3, 3, 0, []⟩]⟩]
        ≠ .ok [⟨7, [⟨1, 1, 0, []⟩, ⟨3, 3, 0, []⟩]⟩] :=
  ⟨fun depth => make_resource_tree_impl_cons depth _ _,
    fun depth => make_resource_tree_impl_ne_ok depth _ _ _⟩

/-- Merging entries of one id that all have a job never ends at the primary template
of `_merge_resources_impl`. -/
theorem merge_resource_list_ne_mergingDifferentResources (i : Nat) (K : List Resource)
    (h : ∀ x ∈ K, x.ID = i ∧ x.jobs ≠ []) :
    merge_resource_list K ≠ .error .mergingDifferentResources := by
  match K, h with
  | [], _ => simp [merge_resource_list]
  | [R], _ => simp [merge_resource_list]
  | R1 :: R2 :: Rs, h =>
    have hid : ∀ x ∈ R2 :: Rs, x.ID = R1.ID := fun x hx => by
      rw [(h x (List.mem_cons_of_mem _ hx)).1, (h R1 (by simp)).1]
    have hne : ∀ x ∈ R2 :: Rs, x.jobs ≠ [] := fun x hx => (h x (List.mem_cons_of_mem _ hx)).2
    by_cases hf : FreshFor R1.jobs (claimedJobs (R2 :: Rs))
    · simp [merge_resource_list, _rec_merge_impl_ok R1 R2 Rs hid hne hf]
    · simp [merge_resource_list, _rec_merge_impl_dup R1 R2 Rs hid hne hf]

theorem make_resource_tree_impl_ne_mergingDifferentResources (depth : Nat)
    (l : List Resource) :
    make_resource_tree_impl depth l ≠ .error .mergingDifferentResources := by
  cases l with
  | nil => cases depth <;> simp [make_resource_tree_impl]
  | cons front tail =>
    cases depth with
    | zero => simp [make_resource_tree_impl]
    | succ d => simp [make_resource_tree_impl_cons]

/-- C11: the merge of the empty list of resources is rejected (the template
`_rec_merge_impl` is named without arguments) and yields no resource. -/
theorem merge_resource_list_nil_rejected :
    merge_resource_list [] = .error .tooFewTemplateArguments ∧
      ∀ r, merge_resource_list [] ≠ .ok r :=
  ⟨rfl, fun _ h => by cases h⟩

/-- C12: the pairwise merge of two resources of different ids is rejected with the
different-resources assertion, whatever their jobs; and the merge of a list of two
or more resources that contains two entries of different ids yields no resource. -/
theorem merge_rejects_different_ids (R1 R2 : Resource) (l : List Resource)
    (hdiff : R1.ID ≠ R2.ID) (hlen : 2 ≤ l.length)
    (hmix : ∃ a ∈ l, ∃ b ∈ l, a.ID ≠ b.ID) :
    _merge_resources_impl R1 R2 = .error .mergingDifferentResources ∧
      ∀ res, merge_resource_list l ≠ .ok res := by
  constructor
  · simp [_merge_resources_impl, hdiff]
  · intro res hres
    obtain ⟨R, Rs, hl, _, _, hall⟩ := merge_resource_list_eq_ok _ _ hres
    subst hl
    have hsame : ∀ x ∈ R :: Rs, x.ID = R.ID := by
      intro x hx
      rw [List.mem_cons] at hx
      rcases hx with rfl | hx
      · rfl
      · exact (hall x hx).1
    obtain ⟨a, ha, b, hb, hab⟩ := hmix
    exact hab ((hsame a ha).trans (hsame b hb).symm)

/-- C12 at `Resource<7, J1>` and `Resource<8, J2>`. -/
theorem merge_rejects_different_ids_witness :
    _merge_resources_impl ⟨7, [⟨1, 1, 0, []⟩]⟩ ⟨8, [⟨2, 2, 0, []⟩]⟩
        = .error .mergingDifferentResources ∧
      ∀ res, merge_resource_list
        [⟨7, [⟨1, 1, 0, []⟩]⟩, ⟨7, [⟨3, 3, 0, []⟩]⟩, ⟨8, [⟨2, 2, 0, []⟩]⟩] ≠ .ok res :=
  merge_rejects_different_ids ⟨7, [⟨1, 1, 0, []⟩]⟩ ⟨8, [⟨2, 2, 0, []⟩]⟩
    [⟨7, [⟨1, 1, 0, []⟩]⟩, ⟨7, [⟨3, 3, 0, []⟩]⟩, ⟨8, [⟨2, 2, 0, []⟩]⟩]
    (by decide) (by decide) (by decide)

/-- C13: the merge of a list of exactly one resource returns that resource, with
its id and its jobs in their order. -/
theorem merge_resource_list_singleton (R : Resource) :
    merge_resource_list [R] = .ok R ∧
      ∀ r, merge_resource_list [R] = .ok r → r.ID = R.ID ∧ r.jobs = R.jobs := by
  refine ⟨rfl, fun r h => ?_⟩
  simp only [merge_resource_list, Except.ok.injEq] at h
  subst h
  exact ⟨rfl, rfl⟩

/-- C16: let every entry of the claim list `l` have at least one job.  For every
list the recursion can reach (a sublist `front :: tail` of `l`), the partition
handed to `merge_resource_list` has only entries of the id of the pivot `front`,
and its merge does not end at the different-resources assertion; the tree builder
as a whole is never rejected with that assertion.  The same holds for the partition
taken with the `ID` of the pivot as left-hand side. -/
theorem tree_builder_never_merges_different_ids (depth : Nat) (l : List Resource)
    (hjobs : ∀ r ∈ l, r.jobs ≠ []) :
    make_resource_tree_impl depth l ≠ .error .mergingDifferentResources ∧
      ∀ front tail, (front :: tail).Sublist l →
        (∀ x ∈ keep_resource_if_same_id (front :: tail) (TypeName.resource front),
            x.ID = front.ID) ∧
          merge_resource_list
            (keep_resource_if_same_id (front :: tail) (TypeName.resource front))
              ≠ .error .mergingDifferentResources ∧
          (∀ x ∈ keep_resource_if_same_id (front :: tail) (TypeName.id front.ID),
            x.ID = front.ID) ∧
          merge_resource_list
            (keep_resource_if_same_id (front :: tail) (TypeName.id front.ID))
              ≠ .error .mergingDifferentResources := by
  refine ⟨make_resource_tree_impl_ne_mergingDifferentResources depth l, ?_⟩
  intro front tail hsub
  have hkeep : ∀ x ∈ keep_resource_if_same_id (front :: tail) (TypeName.id front.ID),
      x.ID = front.ID ∧ x.jobs ≠ [] := by
    intro x hx
    rw [mem_keep_resource_if_same_id_id] at hx
    exact ⟨hx.2, hjobs x (hsub.subset hx.1)⟩
  rw [keep_resource_if_same_id_resource]
  refine ⟨fun x hx => absurd hx (List.not_mem_nil x), ?_, fun x hx => (hkeep x hx).1, ?_⟩
  · simp [merge_resource_list]
  · exact merge_resource_list_ne_mergingDifferentResources front.ID _ hkeep

/-- C16 at the claim list `[Resource<7, J1>, Resource<8, J2>]`. -/
theorem tree_builder_never_merges_different_ids_witness :
    make_resource_tree_impl 3 [⟨7, [⟨1, 1, 0, []⟩]⟩, ⟨8, [⟨2, 2, 0, []⟩]⟩]
      ≠ .error .mergingDifferentResources :=
  (tree_builder_never_merges_different_ids 3
    [⟨7, [⟨1, 1, 0, []⟩]⟩, ⟨8, [⟨2, 2, 0, []⟩]⟩] (by decide)).1

/-- C17: when the merge of a list of entries succeeds, the jobs of the result are
the concatenation of the job lists of the entries, in list order and with the jobs
of each entry in their order. -/
theorem merge_resource_list_preserves_order (l : List Resource) (r : Resource)
    (h : merge_resource_list l = .ok r) :
    r.jobs = List.flatMap l Resource.jobs := by
  obtain ⟨R, Rs, _, hr, _, _⟩ := merge_resource_list_eq_ok l r h
  rw [hr]
  rfl

/-- C17 at `Resource<7, J3, J1>, Resource<7, J2>`. -/
theorem merge_resource_list_preserves_order_witness :
    (⟨7, [⟨3, 3, 0, []⟩, ⟨1, 1, 0, []⟩, ⟨2, 2, 0, []⟩]⟩ : Resource).jobs
      = List.flatMap [⟨7, [⟨3, 3, 0, []⟩, ⟨1, 1, 0, []⟩]⟩, ⟨7, [⟨2, 2, 0, []⟩]⟩]
          Resource.jobs :=
  merge_resource_list_preserves_order
    [⟨7, [⟨3, 3, 0, []⟩, ⟨1, 1, 0, []⟩]⟩, ⟨7, [⟨2, 2, 0, []⟩]⟩]
    ⟨7, [⟨3, 3, 0, []⟩, ⟨1, 1, 0, []⟩, ⟨2, 2, 0, []⟩]⟩ rfl

/-- C18: for a job with unique id `u`, priority `p`, ISR `i` and declared resources
`res`, `job_to_resource_impl` returns as many resources as were declared; the one
at position `n` has the id declared at position `n` and exactly one job, which has
`u`, `p`, `i` and no resources; a job without declared resources gives the empty
list. -/
theorem job_to_resource_impl_entries (u p i : Nat) (res : List Nat) :
    (job_to_resource_impl ⟨u, p, i, res⟩).length = res.length ∧
      (∀ n : Nat, (job_to_resource_impl ⟨u, p, i, res⟩)[n]? =
        (res[n]?).map (fun r => (⟨r, [⟨u, p, i, []⟩]⟩ : Resource))) ∧
      job_to_resource_impl ⟨u, p, i, []⟩ = [] := by
  refine ⟨by simp [job_to_resource_impl], fun n => ?_, rfl⟩
  simp [job_to_resource_impl, List.getElem?_map]

/-- C19: for a list of two or more entries of one id, the merge is rejected exactly
when an entry behind the first has no job, or a job of an entry behind the first has
the unique id of a job that precedes it (in an earlier entry, the first included, or
earlier in its own entry).  Neither condition looks at the first entry alone. -/
theorem merge_resource_list_rejected_iff (i : Nat) (R1 R2 : Resource) (Rs : List Resource)
    (hid : ∀ r ∈ R1 :: R2 :: Rs, r.ID = i) :
    (∃ e, merge_resource_list (R1 :: R2 :: Rs) = .error e) ↔
      ((∃ x ∈ R2 :: Rs, x.jobs = []) ∨
        ∃ a j b, claimedJobs (R2 :: Rs) = a ++ j :: b ∧
          j.UID ∈ (R1.jobs ++ a).map Job.UID) := by
  have hid2 : ∀ x ∈ R2 :: Rs, x.ID = R1.ID := fun x hx => by
    rw [hid x (List.mem_cons_of_mem _ hx), hid R1 (by simp)]
  constructor
  · rintro ⟨e, he⟩
    by_contra hcon
    rw [not_or] at hcon
    have hne : ∀ x ∈ R2 :: Rs, x.jobs ≠ [] := fun x hx hz => hcon.1 ⟨x, hx, hz⟩
    have hf : FreshFor R1.jobs (claimedJobs (R2 :: Rs)) := by
      rw [freshFor_iff_no_clash]
      intro a j b hsplit hmem
      exact hcon.2 ⟨a, j, b, hsplit, hmem⟩
    have hok := _rec_merge_impl_ok R1 R2 Rs hid2 hne hf
    simp only [merge_resource_list] at he
    rw [hok] at he
    cases he
  · intro h
    cases hres : merge_resource_list (R1 :: R2 :: Rs) with
    | error e => exact ⟨e, rfl⟩
    | ok r =>
      exfalso
      obtain ⟨R, Rs2, hl, _, hf, hall⟩ := merge_resource_list_eq_ok _ _ hres
      obtain ⟨h1, h2⟩ := List.cons.inj hl
      subst h1 h2
      rcases h with ⟨x, hx, hz⟩ | ⟨a, j, b, hsplit, hmem⟩
      · exact (hall x hx).2 hz
      · exact (freshFor_iff_no_clash _ _).1 hf a j b hsplit hmem

/-- C19 at `Resource<7, J1, J1>, Resource<7, J2, J2>`: rejected, for the repeated job
of the second entry. -/
theorem merge_resource_list_rejected_iff_witness :
    ∃ e, merge_resource_list
      [⟨7, [⟨1, 1, 0, []⟩, ⟨1, 1, 0, []⟩]⟩, ⟨7, [⟨2, 2, 0, []⟩, ⟨2, 2, 0, []⟩]⟩]
        = .error e :=
  (merge_resource_list_rejected_iff 7 ⟨7, [⟨1, 1, 0, []⟩, ⟨1, 1, 0, []⟩]⟩
    ⟨7, [⟨2, 2, 0, []⟩, ⟨2, 2, 0, []⟩]⟩ [] (by decide)).2
    (Or.inr ⟨[⟨2, 2, 0, []⟩], ⟨2, 2, 0, []⟩, [], rfl, by decide⟩)

end details

namespace arm_intrinsics

/-! ## Priority Register Driver: conditional raise and restoration -/

theorem set_BASEPRI_MAX_eq_of_ne (w : Nat) (s : Cpu) (h : set_BASEPRI_MAX w s ≠ s) :
    (w % 256 ≠ 0 ∧ (w % 256 < s.BASEPRI ∨ s.BASEPRI = 0)) ∧
      set_BASEPRI_MAX w s = ⟨w % 256⟩ := by
  unfold set_BASEPRI_MAX at h ⊢
  by_cases hc : w % 256 ≠ 0 ∧ (w % 256 < s.BASEPRI ∨ s.BASEPRI = 0)
  · exact ⟨hc, if_pos hc⟩
  · rw [if_neg hc] at h
    exact absurd rfl h

theorem exit_enter (cm ceiling : Nat) (s s2 : Cpu) (h : s.BASEPRI < 256) :
    exit (enter cm ceiling s).1 s2 = s := by
  cases s with
  | mk m => simp [exit, enter, get_BASEPRI, set_BASEPRI, Nat.mod_eq_of_lt h]

theorem run_eq (cm : Nat) (n : Sections) (s : Cpu) (h : s.BASEPRI < 256) :
    run cm n s = s := by
  induction n generalizing s with
  | done => rfl
  | sect ceiling inner next _ ih =>
    simp only [run]
    rw [exit_enter cm ceiling s _ h]
    exact ih s h

/-- C14: with a non-zero mask `C` installed, `set_BASEPRI_MAX(v)` for a value `v`
that is not more protective than `C` (its field is 0, or numerically not below `C`)
leaves the register at `C`, also in the template form; and whenever
`set_BASEPRI_MAX(w)` changes the register, the register was 0 or `w` increases the
priority level over it, and the register becomes the field of `w`. -/
theorem set_BASEPRI_MAX_never_weakens (C v : Nat) (hC : C ≠ 0)
    (hv : v % 256 = 0 ∨ C ≤ v % 256) :
    get_BASEPRI (set_BASEPRI_MAX v ⟨C⟩) = C ∧
      get_BASEPRI (set_BASEPRI_MAX_const v ⟨C⟩) = C ∧
      ∀ (s : Cpu) (w : Nat), set_BASEPRI_MAX w s ≠ s →
        (s.BASEPRI = 0 ∨ (w % 256 ≠ 0 ∧ w % 256 < s.BASEPRI)) ∧
          get_BASEPRI (set_BASEPRI_MAX w s) = w % 256 := by
  have hkeep : set_BASEPRI_MAX v ⟨C⟩ = ⟨C⟩ := by
    unfold set_BASEPRI_MAX
    apply if_neg
    rintro ⟨h1, h2⟩
    rcases hv with hv | hv
    · exact h1 hv
    · rcases h2 with h2 | h2
      · exact Nat.lt_irrefl _ (Nat.lt_of_lt_of_le h2 hv)
      · exact hC h2
  refine ⟨by rw [hkeep]; rfl, by rw [set_BASEPRI_MAX_const, hkeep]; rfl, ?_⟩
  intro s w hne
  obtain ⟨⟨h1, h2⟩, h3⟩ := set_BASEPRI_MAX_eq_of_ne w s hne
  refine ⟨?_, by rw [h3]; rfl⟩
  rcases h2 with h2 | h2
  · exact Or.inr ⟨h1, h2⟩
  · exact Or.inl h2

/-- C14 with the mask 0x40 installed and the less protective value 0x80. -/
theorem set_BASEPRI_MAX_never_weakens_witness :
    get_BASEPRI (set_BASEPRI_MAX 128 ⟨64⟩) = 64 :=
  (set_BASEPRI_MAX_never_weakens 64 128 (by decide) (by decide)).1

/-- C15: from a register content `m`, the sequence `enter(a); enter(b); exit(b);
exit(a)`, each `exit` being given the mask captured by its `enter`, ends with the
register at `m`; and so does every execution of properly nested sections. -/
theorem nested_sections_restore_mask (cm m a b : Nat) (hm : m < 256) :
    get_BASEPRI
        (exit (enter cm a ⟨m⟩).1
          (exit (enter cm b (enter cm a ⟨m⟩).2).1 (enter cm b (enter cm a ⟨m⟩).2).2)) = m ∧
      ∀ n : Sections, get_BASEPRI (run cm n ⟨m⟩) = m := by
  constructor
  · rw [exit_enter cm a ⟨m⟩ _ hm]
    rfl
  · intro n
    rw [run_eq cm n ⟨m⟩ hm]
    rfl

/-- C15 from the mask 0x80 with the ceilings 0x40 and 0x20. -/
theorem nested_sections_restore_mask_witness :
    get_BASEPRI
        (exit (enter 4 64 ⟨128⟩).1
          (exit (enter 4 32 (enter 4 64 ⟨128⟩).2).1 (enter 4 32 (enter 4 64 ⟨128⟩).2).2))
          = 128 ∧
      ∀ n : Sections, get_BASEPRI (run 4 n ⟨128⟩) = 128 :=
  nested_sections_restore_mask 4 128 64 32 (by decide)

end arm_intrinsics

end rtfm
